import Mathlib

/-!
Shallow embedding of `nicerpdb` (src/nicerpdb/debugger.py), a Rich-based
frontend over Python's `pdb`.  Python dictionaries are modelled as
association lists in insertion order, the `linecache` source cache as a
function from file names to the (possibly empty) list of source lines, and
all console printing as a list of abstract `Output` events.  Machine-level
concerns do not arise: the Python integers involved are modelled as `Int`.
-/

/-- Python runtime values, as far as the configuration and variable tables
need them.  `vBool`/`vInt`/`vStr` cover the recognized config options and
give a nontrivial universe for variable bindings. -/
inductive PyVal where
  | vBool (b : Bool)
  | vInt (n : Int)
  | vStr (s : String)
deriving DecidableEq, Repr

/-- Python truthiness (`if value:`) restricted to the `PyVal` universe. -/
def PyVal.truthy : PyVal → Bool
  | .vBool b => b
  | .vInt n => n != 0
  | .vStr s => s != ""

/-- A Python `dict` with string keys: an association list in insertion
order, keys unique by construction of the operations below. -/
abbrev PyDict := List (String × PyVal)

/-- `d[k] = v`: overwrite in place if the key exists, else append. -/
def dictSet (d : PyDict) (k : String) (v : PyVal) : PyDict :=
  if d.any (fun p => p.1 == k) then
    d.map (fun p => if p.1 == k then (k, v) else p)
  else d ++ [(k, v)]

/-- `d.update(other)`: fold `dictSet` over the other dict's items. -/
def dictUpdate (d other : PyDict) : PyDict :=
  other.foldl (fun acc kv => dictSet acc kv.1 kv.2) d

/-- `d[k]` / `k in d`: first (hence only) binding of `k`, if any. -/
def dictGet (d : PyDict) (k : String) : Option PyVal :=
  (d.find? (fun p => p.1 == k)).map (fun p => p.2)

/-- `d.get(k, dflt)`. -/
def dictGetD (d : PyDict) (k : String) (dflt : PyVal) : PyVal :=
  (dictGet d k).getD dflt

/-- Python `str.strip()`: drop whitespace from both ends. -/
def pyStrip (s : String) : String :=
  ⟨((s.data.dropWhile Char.isWhitespace).reverse.dropWhile Char.isWhitespace).reverse⟩

/-- Python string slice `s[:n]`: the first `n` characters. -/
def strTake (s : String) (n : Nat) : String :=
  ⟨s.data.take n⟩

/-- Python list slice `l[a:b]` for the nonnegative bounds produced by the
`max(0, _)` / `min(len, _)` clamping in the source (negative Python slice
indices, which count from the end, never reach these call sites). -/
def pySlice (l : List α) (a b : Int) : List α :=
  (l.take b.toNat).drop a.toNat

/-- The `linecache` source cache: `linecache.getlines` returns the list of
lines of a file, or `[]` when the file is missing or unreadable. -/
abbrev SourceCache := String → List String

/-- One row of the `where` stack table, as passed to `table.add_row`
(all four cells are strings in the source). -/
structure StackRow where
  idx : String
  func : String
  loc : String
  ctx : String
deriving DecidableEq, Repr

/-- Everything the debugger prints to the shared Rich console, as abstract
events.  `sourcePanel` records the snippet, its `start_line`, the
`highlight_lines` singleton and the panel title parts; `superDefault`
records delegation to `pdb.Pdb.default`. -/
inductive Output where
  | rule
  | cannotReadSource (filename : String)
  | cannotReadFile (filename : String)
  | sourcePanel (snippet : List String) (startLine : Int) (highlight : Int)
      (titleFile : String) (titleLine : Int)
  | fullPanel (text : List String) (highlight : Int) (titleFile : String)
  | stackTable (rows : List StackRow)
  | globalsTable (rows : List (String × PyVal))
  | localsTable (rows : List (String × PyVal))
  | tracebackPrint
  | configWarning
  | pretty (v : PyVal)
  | usageHint
  | errorLine (msg : String)
  | superDefault (line : String)
deriving DecidableEq, Repr

/-- The per-frame data a `FrameType` exposes: `f_code.co_filename`,
`f_lineno`, `f_code.co_name`, `f_locals`, `f_globals`, `f_code.co_names`. -/
structure FrameData where
  filename : String
  lineno : Int
  funcName : String
  locals : PyDict
  globals : PyDict
  co_names : List String

/-- An execution frame: its data plus the `f_back` chain (a nonempty
singly-linked list ending at the outermost frame). -/
inductive Frame where
  | base (data : FrameData)
  | call (data : FrameData) (back : Frame)

/-- The frame's own data. -/
def Frame.data : Frame → FrameData
  | .base d => d
  | .call d _ => d

/-- `f_back`: the caller, `none` at the outermost frame. -/
def Frame.back : Frame → Option Frame
  | .base _ => none
  | .call _ b => some b

/-- The `while cur: stack.append(cur); cur = cur.f_back` loop of
`_render_stack`: the frame followed by all its callers, innermost first. -/
def Frame.walk : Frame → List Frame
  | .base d => [.base d]
  | .call d b => .call d b :: b.walk

/-- The same chain collected outermost-caller-first (the order the spec
talks about); used to compare against `walk.reverse`. -/
def Frame.chainOutermostFirst : Frame → List Frame
  | .base d => [.base d]
  | .call d b => b.chainOutermostFirst ++ [.call d b]

-- -------------------- Config loader --------------------

/-- `DEFAULT_CONFIG` from the source. -/
def DEFAULT_CONFIG : PyDict :=
  [("context_lines", .vInt 3), ("show_locals", .vBool true), ("show_stack", .vBool true)]

/-- The observable states of `~/.nicerpdb.toml`: absent; present but
raising on open/parse; or parsing to a TOML document (a dict). -/
inductive TomlFile where
  | absent
  | unreadable
  | parses (d : PyDict)

/-- `load_config`, with the process-global `DEFAULT_CONFIG` threaded
explicitly: takes its current value, returns (result, the global after the
call, console output).  The source copies the global (`DEFAULT_CONFIG.copy()`)
and only mutates the copy, so the returned global is the input unchanged. -/
def load_config (defaults : PyDict) (file : TomlFile) :
    PyDict × PyDict × List Output :=
  match file with
  | .absent => (defaults, defaults, [])
  | .unreadable => (defaults, defaults, [.configWarning])
  | .parses d => (dictUpdate defaults d, defaults, [])

-- -------------------- Rendering helpers --------------------

/-- `RichPdb._render_source_block`. -/
def renderSourceBlock (fs : SourceCache) (filename : String) (lineno context : Int) :
    List Output :=
  let lines := fs filename
  if lines.isEmpty then
    [.cannotReadSource filename]
  else
    let start : Int := max 0 (lineno - 1 - context)
    let stop : Int := min (lines.length : Int) (lineno - 1 + context + 1)
    let snippet := pySlice lines start stop
    [.sourcePanel snippet (start + 1) lineno filename lineno]

/-- `RichPdb._render_full_file`. -/
def renderFullFile (fs : SourceCache) (filename : String) (lineno : Int) :
    List Output :=
  let lines := fs filename
  if lines.isEmpty then
    [.cannotReadFile filename]
  else
    [.fullPanel lines lineno filename]

/-- The raw (pre-truncation) context excerpt of one stack row: up to three
source lines around `ln`, stripped and joined with single spaces. -/
def rawExcerpt (fs : SourceCache) (fname : String) (ln : Int) : String :=
  let src := fs fname
  let a : Int := max 0 (ln - 2)
  let b : Int := min (src.length : Int) (ln + 1)
  String.intercalate " " ((pySlice src a b).map pyStrip)

/-- The `ctx` cell of one stack row: empty when the file is unreadable,
else the raw excerpt hard-truncated to 117 chars plus an ellipsis when
longer than 120 chars. -/
def frameExcerpt (fs : SourceCache) (fname : String) (ln : Int) : String :=
  if (fs fname).isEmpty then ""
  else
    let ctx := rawExcerpt fs fname ln
    if ctx.length > 120 then strTake ctx 117 ++ "..." else ctx

/-- One `table.add_row(str(i), func, f-string loc, ctx)` of `_render_stack`. -/
def mkStackRow (fs : SourceCache) (i : Nat) (fr : Frame) : StackRow :=
  { idx := toString i
  , func := fr.data.funcName
  , loc := fr.data.filename ++ ":" ++ toString fr.data.lineno
  , ctx := frameExcerpt fs fr.data.filename fr.data.lineno }

/-- The rows of the `_render_stack` table: `enumerate(stack, start=1)` over
the reversed walk. -/
def renderStackRows (fs : SourceCache) (frame : Frame) : List StackRow :=
  ((Frame.walk frame).reverse.enumFrom 1).map (fun p => mkStackRow fs p.1 p.2)

/-- `RichPdb._render_stack`. -/
def renderStack (fs : SourceCache) (frame : Frame) : List Output :=
  [.stackTable (renderStackRows fs frame)]

/-- The locals table rows of `_render_vars`: `sorted(frame.f_locals.items())`.
Dict keys are unique, so Python's tuple sort is a sort by name; modelled as
a merge sort by key. -/
def localsRowsOf (frame : FrameData) : List (String × PyVal) :=
  frame.locals.mergeSort (fun a b => decide (a.1 ≤ b.1))

/-- The globals table rows of `_render_vars`: the names in
`set(co_names) | set of the two dunders` that are bound in `f_globals`,
paired with their values.  Python set iteration order is unspecified; the
model fixes first-occurrence order, which the claims do not depend on. -/
def globalsRowsOf (frame : FrameData) : List (String × PyVal) :=
  ((frame.co_names ++ ["__name__", "__file__"]).dedup).filterMap
    (fun n => (dictGet frame.globals n).map (fun v => (n, v)))

/-- `RichPdb._render_vars`: builds both tables, prints globals then locals. -/
def renderVars (frame : FrameData) : List Output :=
  [.globalsTable (globalsRowsOf frame), .localsTable (localsRowsOf frame)]

-- -------------------- Session controller --------------------

/-- A constructed `RichPdb` instance: its class-level `config` and the
resolved `show_locals` / `context_lines` attributes.  Config values carry
no schema, so the resolved attributes live in the `PyVal` universe. -/
structure RichPdb where
  config : PyDict
  show_locals : PyVal
  context_lines : PyVal

/-- `RichPdb.__init__`: explicit argument if not `None`, else the class
config's value via subscript (`KeyError`, i.e. `none`, if the key is
absent from the config). -/
def RichPdb.init (config : PyDict) (show_locals : Option PyVal)
    (context_lines : Option PyVal) : Option RichPdb :=
  match (match show_locals with
         | some v => some v
         | none => dictGet config "show_locals"),
        (match context_lines with
         | some v => some v
         | none => dictGet config "context_lines") with
  | some sl, some cl => some ⟨config, sl, cl⟩
  | _, _ => none

/-- The `if self.config.get("show_stack", True):` test of `interaction`. -/
def RichPdb.showStackDecision (pdb : RichPdb) : Bool :=
  (dictGetD pdb.config "show_stack" (.vBool true)).truthy

/-- Reading `self.context_lines` as the int the arithmetic of
`_render_source_block` needs.  A Python `bool` is an `int` (`True == 1`);
a string there would raise `TypeError` inside `interaction`'s guarded
block, which claims quantify over separately, so it is mapped to 0 here. -/
def PyVal.asInt : PyVal → Int
  | .vBool b => if b then 1 else 0
  | .vInt n => n
  | .vStr _ => 0

/-- The body of `interaction`'s `try` block for a non-`None` frame: source
window, then variables if `show_locals` is truthy, then stack if the
config says so. -/
def stopRender (fs : SourceCache) (pdb : RichPdb) (frame : Frame) : List Output :=
  renderSourceBlock fs frame.data.filename frame.data.lineno pdb.context_lines.asInt
  ++ (if pdb.show_locals.truthy then renderVars frame.data else [])
  ++ (if pdb.showStackDecision then renderStack fs frame else [])

/-- `RichPdb.interaction`, parameterized over the guarded rendering body:
`body f = (outs, raised)` is what the `try` block printed before returning
normally (`raised = false`) or raising an `Exception` (`raised = true`) —
the renderers call into Rich, which may raise.  Result: the console
output, and whether `super().interaction` (the inherited command loop) was
entered. -/
def interactionWith (body : Frame → List Output × Bool) (frame : Option Frame) :
    List Output × Bool :=
  let rendered : List Output × Bool :=
    match frame with
    | none => ([], false)
    | some f => body f
  (Output.rule :: (rendered.1 ++ (if rendered.2 then [.tracebackPrint] else [])), true)

/-- `RichPdb.interaction` with the concrete renderers of this file as the
(non-raising) body. -/
def interaction (fs : SourceCache) (pdb : RichPdb) (frame : Option Frame) :
    List Output × Bool :=
  interactionWith (fun f => (stopRender fs pdb f, false)) frame

-- -------------------- Command overrides --------------------

/-- `RichPdb.default`, parameterized over `self._getval` (pdb's expression
evaluator, which may raise).  Result: console output, the handler's return
value (`super().default` returns `None`, modelled as `none`), and the list
of expressions actually handed to the evaluator. -/
def defaultCmd (getval : String → Except String PyVal) (line : String) :
    List Output × Option Bool × List String :=
  let line := pyStrip line
  if line = "" then ([], some false, [])
  else
    match getval line with
    | .ok v => ([.pretty v], some false, [line])
    | .error _ => ([.superDefault line], none, [line])

/-- `RichPdb.do_p`: usage hint on blank argument, else evaluate the raw
argument and pretty-print, printing a short error line if evaluation
raises.  Result: console output and the expressions evaluated. -/
def do_p (getval : String → Except String PyVal) (arg : String) :
    List Output × List String :=
  if pyStrip arg = "" then ([.usageHint], [])
  else
    match getval arg with
    | .ok v => ([.pretty v], [arg])
    | .error e => ([.errorLine e], [arg])

-- -------------------- Concrete sample inputs --------------------

/-- A five-line source file, for concrete evaluations. -/
def fsA : SourceCache := fun n =>
  if n = "a.py" then ["l1\n", "l2\n", "l3\n", "l4\n", "l5\n"] else []

/-- A cache with one 130-character line, long enough to force excerpt
truncation. -/
def fsLong : SourceCache := fun n =>
  if n = "g.py" then [String.mk (List.replicate 130 'a')] else []

/-- An empty source cache: every file is missing. -/
def fsEmpty : SourceCache := fun _ => []

/-- Sample frame data for an outermost frame. -/
def frameD1 : FrameData :=
  ⟨"a.py", 2, "main", [("x", .vInt 1)], [("__name__", .vStr "m")], ["foo"]⟩

/-- Sample frame data for an inner frame. -/
def frameD2 : FrameData := ⟨"a.py", 4, "foo", [], [], []⟩

/-- A two-frame chain: `foo` called from `main`. -/
def frameB : Frame := .call frameD2 (.base frameD1)

/-- A sample evaluator: knows `x`, raises on everything else. -/
def getvalW : String → Except String PyVal :=
  fun s => if s = "x" then .ok (.vInt 1) else .error "boom"

-- -------------------- Theorems --------------------

/-- C2: on a stop, a `None` frame skips the source/variable/stack renders
(only the rule is printed); an `Exception` raised by the guarded rendering
body is caught and replaced by a formatted traceback printout; and in every
case the inherited `super().interaction` command loop is still entered.
The body argument ranges over all possible behaviours of the three
renderer calls, including raising. -/
theorem interaction_stop_entry :
    ∀ (body : Frame → List Output × Bool) (frame : Option Frame),
      (interactionWith body frame).2 = true
      ∧ interactionWith body none = ([.rule], true)
      ∧ (∀ f outs, body f = (outs, false) →
          interactionWith body (some f) = (.rule :: outs, true))
      ∧ (∀ f outs, body f = (outs, true) →
          interactionWith body (some f) = (.rule :: (outs ++ [.tracebackPrint]), true))
      ∧ (∀ (fs : SourceCache) (pdb : RichPdb),
          interaction fs pdb frame
            = interactionWith (fun f => (stopRender fs pdb f, false)) frame) := by
  intro body frame
  refine ⟨rfl, by simp [interactionWith], ?_, ?_, fun fs pdb => rfl⟩
  · intro f outs h
    simp [interactionWith, h]
  · intro f outs h
    simp [interactionWith, h]

/-- Witness for C2 at a concrete raising body and a concrete frame. -/
theorem interaction_stop_entry_witness :
    interactionWith (fun _ => ([.usageHint], true)) (some frameB)
      = ([.rule, .usageHint, .tracebackPrint], true) := by
  have h := (interaction_stop_entry (fun _ => ([.usageHint], true))
    (some frameB)).2.2.2.1 frameB [.usageHint] rfl
  simpa using h

/-- C4: when the source cache has no lines for a path (missing, unreadable
or empty), both the windowed render and the full-file render print a plain
fallback notice and produce nothing else (in particular they do not raise:
both are total and return normally). -/
theorem render_missing_file_fallback :
    ∀ (fs : SourceCache) (f : String) (line ctx : Int), fs f = [] →
      renderSourceBlock fs f line ctx = [.cannotReadSource f]
      ∧ renderFullFile fs f line = [.cannotReadFile f] := by
  intro fs f line ctx h
  constructor <;> simp [renderSourceBlock, renderFullFile, h]

/-- Witness for C4 at the empty cache. -/
theorem render_missing_file_fallback_witness :
    renderSourceBlock fsEmpty "nope.py" 5 2 = [.cannotReadSource "nope.py"]
    ∧ renderFullFile fsEmpty "nope.py" 5 = [.cannotReadFile "nope.py"] :=
  render_missing_file_fallback fsEmpty "nope.py" 5 2 rfl

/-- C5: `load_config` is total over every file state (no exception
escapes); an absent file yields the untouched defaults with no output; an
unreadable or unparsable file yields the defaults plus exactly one
warning; a parsed document is merged over the defaults with no schema
validation (any dict is accepted), with no output. -/
theorem load_config_error_handling :
    load_config DEFAULT_CONFIG .absent = (DEFAULT_CONFIG, DEFAULT_CONFIG, [])
    ∧ load_config DEFAULT_CONFIG .unreadable
        = (DEFAULT_CONFIG, DEFAULT_CONFIG, [.configWarning])
    ∧ ∀ d : PyDict, load_config DEFAULT_CONFIG (.parses d)
        = (dictUpdate DEFAULT_CONFIG d, DEFAULT_CONFIG, []) :=
  ⟨rfl, rfl, fun _ => rfl⟩

/-- C10: with an unchanged file state, a second `load_config` call returns
the same mapping as the first, and neither call mutates the global
defaults (the source updates only a fresh `DEFAULT_CONFIG.copy()`). -/
theorem load_config_idempotent :
    ∀ (defaults : PyDict) (file : TomlFile),
      (load_config (load_config defaults file).2.1 file).1
          = (load_config defaults file).1
      ∧ (load_config defaults file).2.1 = defaults
      ∧ (load_config (load_config defaults file).2.1 file).2.1 = defaults := by
  intro defaults file
  cases file <;> exact ⟨rfl, rfl, rfl⟩

/-- C6: `p` with a whitespace-only argument evaluates nothing and prints
the usage hint; `p expr` pretty-prints on success and prints a short error
line when evaluation raises, without propagating; a bare input line that
strips to empty evaluates nothing and returns `False`; a non-empty bare
line is pretty-printed on success and falls back to `pdb.Pdb.default` when
evaluation raises.  All four handlers are total: no evaluation error
escapes. -/
theorem eval_error_recovery :
    ∀ (getval : String → Except String PyVal) (arg line : String) (v : PyVal)
      (e : String),
      (pyStrip arg = "" → do_p getval arg = ([.usageHint], []))
      ∧ (pyStrip arg ≠ "" → getval arg = .ok v →
          do_p getval arg = ([.pretty v], [arg]))
      ∧ (pyStrip arg ≠ "" → getval arg = .error e →
          do_p getval arg = ([.errorLine e], [arg]))
      ∧ (pyStrip line = "" → defaultCmd getval line = ([], some false, []))
      ∧ (pyStrip line ≠ "" → getval (pyStrip line) = .ok v →
          defaultCmd getval line = ([.pretty v], some false, [pyStrip line]))
      ∧ (pyStrip line ≠ "" → getval (pyStrip line) = .error e →
          defaultCmd getval line
            = ([.superDefault (pyStrip line)], none, [pyStrip line])) := by
  intro getval arg line v e
  refine ⟨?_, ?_, ?_, ?_, ?_, ?_⟩ <;> intro h
  · simp [do_p, h]
  · intro hg; simp [do_p, h, hg]
  · intro hg; simp [do_p, h, hg]
  · simp [defaultCmd, h]
  · intro hg; simp [defaultCmd, h, hg]
  · intro hg; simp [defaultCmd, h, hg]

/-- Witness for C6 at the sample evaluator: blank `p`, raising `p`,
successful bare line, raising bare line. -/
theorem eval_error_recovery_witness :
    do_p getvalW "  " = ([.usageHint], [])
    ∧ do_p getvalW "y" = ([.errorLine "boom"], ["y"])
    ∧ defaultCmd getvalW " x " = ([.pretty (.vInt 1)], some false, ["x"])
    ∧ defaultCmd getvalW " y " = ([.superDefault "y"], none, ["y"]) := by
  refine ⟨?_, ?_, ?_, ?_⟩
  · exact (eval_error_recovery getvalW "  " "" (.vInt 0) "").1 (by decide)
  · exact (eval_error_recovery getvalW "y" "" (.vInt 0) "boom").2.2.1
      (by decide) rfl
  · have h := (eval_error_recovery getvalW "" " x " (.vInt 1) "").2.2.2.2.1
      (by decide) rfl
    simpa using h
  · have h := (eval_error_recovery getvalW "" " y " (.vInt 0) "boom").2.2.2.2.2
      (by decide) rfl
    simpa using h

/-- C1: for a file of `L` lines, a target `1 ≤ line ≤ L` and `context ≥ 0`,
the windowed render emits a single panel whose snippet is exactly the
1-based inclusive line range `[max 1 (line-context), min L (line+context)]`
of the file, whose displayed numbering starts at `max 1 (line-context)`
(the 0-indexed slice start plus one), and whose highlighted line is the
target, which lies inside the displayed range. -/
theorem windowed_render_range :
    ∀ (fs : SourceCache) (f : String) (line ctx : Int),
      0 ≤ ctx → 1 ≤ line → line ≤ ((fs f).length : Int) →
      renderSourceBlock fs f line ctx
        = [.sourcePanel
            (((fs f).take (min ((fs f).length : Int) (line + ctx)).toNat).drop
              ((max 1 (line - ctx)).toNat - 1))
            (max 1 (line - ctx)) line f line]
      ∧ max 1 (line - ctx) ≤ line
      ∧ line ≤ min ((fs f).length : Int) (line + ctx)
      ∧ ((((fs f).take (min ((fs f).length : Int) (line + ctx)).toNat).drop
            ((max 1 (line - ctx)).toNat - 1)).length : Int)
          = min ((fs f).length : Int) (line + ctx) - max 1 (line - ctx) + 1 := by
  intro fs f line ctx hctx h1 hL
  have hne : (fs f).isEmpty = false := by
    cases h : fs f with
    | nil => rw [h] at hL; simp at hL; omega
    | cons a t => simp [h]
  have e1 : (max 0 (line - 1 - ctx)).toNat = (max 1 (line - ctx)).toNat - 1 := by
    omega
  have e2 : (min ((fs f).length : Int) (line - 1 + ctx + 1)).toNat
      = (min ((fs f).length : Int) (line + ctx)).toNat := by
    omega
  have e3 : max 0 (line - 1 - ctx) + 1 = max 1 (line - ctx) := by
    omega
  refine ⟨?_, by omega, by omega, ?_⟩
  · simp only [renderSourceBlock, pySlice, hne, Bool.false_eq_true, if_false]
    rw [e1, e2, e3]
  · rw [List.length_drop, List.length_take]
    omega

/-- Witness for C1: a five-line file, target line 3, context 1 shows lines
2 through 4 numbered from 2 with line 3 highlighted. -/
theorem windowed_render_range_witness :
    renderSourceBlock fsA "a.py" 3 1
      = [.sourcePanel ["l2\n", "l3\n", "l4\n"] 2 3 "a.py" 3] := by
  have h := windowed_render_range fsA "a.py" 3 1 (by decide) (by decide) (by decide)
  exact h.1.trans (by decide)

/-- The reversed append-then-reverse loop of `_render_stack` lists the
chain outermost caller first. -/
theorem walk_reverse_eq_chain (frame : Frame) :
    (Frame.walk frame).reverse = Frame.chainOutermostFirst frame := by
  induction frame with
  | base d => rfl
  | call d b ih => simp [Frame.walk, Frame.chainOutermostFirst, ih]

/-- Mapping a row builder over `enumerate(l, start=n)` and projecting the
non-index cells forgets the counter. -/
theorem stackRows_map_funcloc (fs : SourceCache) (l : List Frame) (n : Nat) :
    ((l.enumFrom n).map (fun p => mkStackRow fs p.1 p.2)).map
        (fun r => (r.func, r.loc))
      = l.map (fun fr =>
          (fr.data.funcName, fr.data.filename ++ ":" ++ toString fr.data.lineno)) := by
  induction l generalizing n with
  | nil => rfl
  | cons a t ih =>
    simp only [List.enumFrom, List.map_cons, mkStackRow]
    exact congrArg _ (ih (n + 1))

/-- Projecting the index cells of the enumerated rows yields the counter
values in order. -/
theorem stackRows_map_idx (fs : SourceCache) (l : List Frame) (n : Nat) :
    ((l.enumFrom n).map (fun p => mkStackRow fs p.1 p.2)).map StackRow.idx
      = (List.range l.length).map (fun j => toString (n + j)) := by
  induction l generalizing n with
  | nil => rfl
  | cons a t ih =>
    simp only [List.enumFrom, List.map_cons, List.length_cons,
      List.range_succ_eq_map]
    rw [List.cons_eq_cons]
    refine ⟨by simp [mkStackRow], ?_⟩
    rw [ih (n + 1), List.map_map]
    apply List.map_congr_left
    intro j _
    simp only [Function.comp_apply]
    exact congrArg toString (by omega)

/-- C3: the stack render is one table whose row count equals the number of
frames from the current frame up to and including the outermost caller
(the back-link chain), whose rows are ordered outermost caller first and
current frame last, and whose index cells are `1`-based in that order. -/
theorem stack_render_order :
    ∀ (fs : SourceCache) (frame : Frame),
      renderStack fs frame = [.stackTable (renderStackRows fs frame)]
      ∧ (renderStackRows fs frame).length
          = (Frame.chainOutermostFirst frame).length
      ∧ (renderStackRows fs frame).map StackRow.idx
          = (List.range (Frame.chainOutermostFirst frame).length).map
              (fun j => toString (j + 1))
      ∧ (renderStackRows fs frame).map (fun r => (r.func, r.loc))
          = (Frame.chainOutermostFirst frame).map (fun fr =>
              (fr.data.funcName,
                fr.data.filename ++ ":" ++ toString fr.data.lineno)) := by
  intro fs frame
  have hrows : renderStackRows fs frame
      = (((Frame.chainOutermostFirst frame).enumFrom 1).map
          (fun p => mkStackRow fs p.1 p.2)) := by
    rw [renderStackRows, walk_reverse_eq_chain]
  refine ⟨rfl, ?_, ?_, ?_⟩
  · rw [hrows]; simp [List.enumFrom_length]
  · rw [hrows, stackRows_map_idx]
    apply List.map_congr_left
    intro j _
    exact congrArg toString (Nat.add_comm 1 j)
  · rw [hrows, stackRows_map_funcloc]

/-- The length of a Python-style string slice `s[:n]`. -/
theorem strTake_length (s : String) (n : Nat) :
    (strTake s n).length = min n s.length := by
  have h : (strTake s n).length = (s.data.take n).length := rfl
  rw [h, List.length_take]
  rfl

/-- A pair drawn from `enumerate(l, start=n)` has its second component in
`l`. -/
theorem snd_mem_enumFrom {α : Type} (l : List α) (n : Nat) (p : Nat × α)
    (hp : p ∈ l.enumFrom n) : p.2 ∈ l := by
  induction l generalizing n with
  | nil => simp [List.enumFrom] at hp
  | cons a t ih =>
    simp only [List.enumFrom, List.mem_cons] at hp
    rcases hp with h | h
    · subst h; exact List.mem_cons_self _ _
    · exact List.mem_cons_of_mem _ (ih (n + 1) h)

/-- The raw excerpt of a missing file is empty. -/
theorem rawExcerpt_nil (fs : SourceCache) (fname : String) (ln : Int)
    (h : fs fname = []) : rawExcerpt fs fname ln = "" := by
  simp only [rawExcerpt, h, pySlice, List.take_nil, List.drop_nil, List.map_nil]
  rfl

/-- C7: every context-excerpt cell of the stack table is the excerpt of
some frame in the chain; an excerpt is never longer than 120 characters; a
missing file yields the empty excerpt; and a raw joined excerpt longer
than 120 characters is hard-truncated to its first 117 characters plus an
ellipsis. -/
theorem stack_excerpt_bound :
    ∀ (fs : SourceCache) (frame : Frame) (fname : String) (ln : Int),
      (∀ r ∈ renderStackRows fs frame, ∃ fr ∈ Frame.chainOutermostFirst frame,
          r.ctx = frameExcerpt fs fr.data.filename fr.data.lineno)
      ∧ (frameExcerpt fs fname ln).length ≤ 120
      ∧ (fs fname = [] → frameExcerpt fs fname ln = "")
      ∧ (120 < (rawExcerpt fs fname ln).length →
          frameExcerpt fs fname ln
            = strTake (rawExcerpt fs fname ln) 117 ++ "...") := by
  intro fs frame fname ln
  refine ⟨?_, ?_, ?_, ?_⟩
  · intro r hr
    rw [renderStackRows] at hr
    obtain ⟨p, hp, hre⟩ := List.mem_map.mp hr
    have h2 : p.2 ∈ (Frame.walk frame).reverse := snd_mem_enumFrom _ _ _ hp
    rw [walk_reverse_eq_chain] at h2
    refine ⟨p.2, h2, ?_⟩
    rw [← hre]
    rfl

  · by_cases he : (fs fname).isEmpty = true
    · simp [frameExcerpt, he]
    · by_cases hl : 120 < (rawExcerpt fs fname ln).length
      · have h : frameExcerpt fs fname ln
            = strTake (rawExcerpt fs fname ln) 117 ++ "..." := by
          simp [frameExcerpt, he, hl]
        rw [h, String.length_append, strTake_length]
        have h3 : ("..." : String).length = 3 := rfl
        rw [h3]; omega
      · have h : frameExcerpt fs fname ln = rawExcerpt fs fname ln := by
          simp [frameExcerpt, he, hl]
        rw [h]; omega
  · intro h
    simp [frameExcerpt, h]
  · intro h120
    have hne : (fs fname).isEmpty = false := by
      cases hc : fs fname with
      | nil => rw [rawExcerpt_nil fs fname ln hc] at h120; simp at h120
      | cons a t => simp [hc]
    simp [frameExcerpt, hne, h120]

set_option maxRecDepth 8000 in
/-- Witness for C7: a 130-character line is truncated to 117 characters
plus the ellipsis, and a missing file yields the empty excerpt. -/
theorem stack_excerpt_bound_witness :
    frameExcerpt fsLong "g.py" 1
      = strTake (rawExcerpt fsLong "g.py" 1) 117 ++ "..."
    ∧ frameExcerpt fsEmpty "h.py" 2 = "" :=
  ⟨(stack_excerpt_bound fsLong (.base frameD1) "g.py" 1).2.2.2 (by decide),
   (stack_excerpt_bound fsEmpty (.base frameD1) "h.py" 2).2.2.1 rfl⟩

/-- C8: the variable render prints the globals table and then the locals
table; the locals table lists every local binding, as a permutation of
`f_locals` sorted by name; and the globals table contains exactly those
bindings of `f_globals` whose name is referenced by the code
(`co_names`) or is one of the two always-included dunder identifiers. -/
theorem vars_render_content :
    ∀ (frame : FrameData),
      renderVars frame = [.globalsTable (globalsRowsOf frame),
        .localsTable (localsRowsOf frame)]
      ∧ (localsRowsOf frame).Perm frame.locals
      ∧ (localsRowsOf frame).Pairwise (fun a b => a.1 ≤ b.1)
      ∧ ∀ n v, (n, v) ∈ globalsRowsOf frame ↔
          ((n ∈ frame.co_names ∨ n = "__name__" ∨ n = "__file__")
            ∧ dictGet frame.globals n = some v) := by
  intro frame
  refine ⟨rfl, List.mergeSort_perm _ _, ?_, ?_⟩
  · have htr : ∀ a b c : String × PyVal,
        decide (a.1 ≤ b.1) = true → decide (b.1 ≤ c.1) = true →
          decide (a.1 ≤ c.1) = true := by
      intro a b c hab hbc
      simp only [decide_eq_true_eq] at hab hbc ⊢
      exact le_trans hab hbc
    have hto : ∀ a b : String × PyVal,
        (decide (a.1 ≤ b.1) || decide (b.1 ≤ a.1)) = true := by
      intro a b
      simp only [Bool.or_eq_true, decide_eq_true_eq]
      exact le_total a.1 b.1
    have h := @List.sorted_mergeSort (String × PyVal)
      (fun a b => decide (a.1 ≤ b.1)) htr hto frame.locals
    exact h.imp (fun hd => of_decide_eq_true hd)
  · intro n v
    unfold globalsRowsOf
    rw [List.mem_filterMap]
    constructor
    · rintro ⟨a, ha, hfa⟩
      rw [List.mem_dedup] at ha
      cases hg : dictGet frame.globals a with
      | none => rw [hg] at hfa; simp at hfa
      | some w =>
        rw [hg] at hfa
        simp only [Option.map_some', Option.some.injEq, Prod.mk.injEq] at hfa
        obtain ⟨h1, h2⟩ := hfa
        subst h1; subst h2
        refine ⟨?_, hg⟩
        simpa using ha
    · rintro ⟨hn, hg⟩
      refine ⟨n, ?_, by simp [hg]⟩
      rw [List.mem_dedup]
      simp only [List.mem_append, List.mem_cons, List.mem_singleton]
      tauto

/-- A dict lookup succeeds exactly when some binding with that key is in
the association list. -/
theorem dictGet_isSome_iff (d : PyDict) (k : String) :
    (dictGet d k).isSome = true ↔ ∃ v, (k, v) ∈ d := by
  have hmap : (dictGet d k).isSome
      = (d.find? (fun p => p.1 == k)).isSome := by
    rw [dictGet]; cases d.find? (fun p => p.1 == k) <;> rfl
  rw [hmap, List.find?_isSome]
  constructor
  · rintro ⟨⟨a, b⟩, hm, he⟩
    have ha : a = k := by simpa using he
    subst ha
    exact ⟨b, hm⟩
  · rintro ⟨v, hv⟩
    exact ⟨(k, v), hv, by simp⟩

/-- `dict[k'] = v` preserves the presence of every key. -/
theorem dictSet_mem_key (d : PyDict) (k' : String) (v : PyVal) (k : String)
    (h : ∃ w, (k, w) ∈ d) : ∃ w, (k, w) ∈ dictSet d k' v := by
  obtain ⟨w, hw⟩ := h
  unfold dictSet
  split
  · by_cases hk : k = k'
    · subst hk
      exact ⟨v, List.mem_map.mpr ⟨(k, w), hw, by simp⟩⟩
    · exact ⟨w, List.mem_map.mpr ⟨(k, w), hw, by simp [hk]⟩⟩
  · exact ⟨w, List.mem_append_left _ hw⟩

/-- `dict.update(other)` preserves the presence of every key. -/
theorem dictUpdate_mem_key (o d : PyDict) (k : String)
    (h : ∃ w, (k, w) ∈ d) : ∃ w, (k, w) ∈ dictUpdate d o := by
  induction o generalizing d with
  | nil => simpa [dictUpdate] using h
  | cons kv t ih =>
    have h1 := dictSet_mem_key d kv.1 kv.2 k h
    have h2 := ih (dictSet d kv.1 kv.2) h1
    simpa [dictUpdate, List.foldl_cons] using h2

/-- `RichPdb.__init__` succeeding determines the attributes: the stored
config, and the resolved option sources. -/
theorem init_inv (cfg : PyDict) (sl cl : Option PyVal) (pdb : RichPdb)
    (h : RichPdb.init cfg sl cl = some pdb) :
    pdb.config = cfg
    ∧ (∀ v, sl = some v → pdb.show_locals = v)
    ∧ (sl = none → dictGet cfg "show_locals" = some pdb.show_locals)
    ∧ (∀ v, cl = some v → pdb.context_lines = v)
    ∧ (cl = none → dictGet cfg "context_lines" = some pdb.context_lines) := by
  cases sl with
  | some v =>
    cases cl with
    | some w =>
      simp only [RichPdb.init, Option.some.injEq] at h
      subst h
      refine ⟨rfl, ?_, ?_, ?_, ?_⟩
      · intro v' hv'; cases hv'; rfl
      · intro hn; exact absurd hn (by simp)
      · intro v' hv'; cases hv'; rfl
      · intro hn; exact absurd hn (by simp)
    | none =>
      cases h2 : dictGet cfg "context_lines" with
      | none =>
        simp only [RichPdb.init, h2] at h
        exact Option.noConfusion h
      | some b =>
        simp only [RichPdb.init, h2, Option.some.injEq] at h
        subst h
        refine ⟨rfl, ?_, ?_, ?_, ?_⟩
        · intro v' hv'; cases hv'; rfl
        · intro hn; exact absurd hn (by simp)
        · intro v' hv'; cases hv'
        · intro hn; rfl
  | none =>
    cases h1 : dictGet cfg "show_locals" with
    | none =>
      simp only [RichPdb.init, h1] at h
      exact Option.noConfusion h
    | some a =>
      cases cl with
      | some w =>
        simp only [RichPdb.init, h1, Option.some.injEq] at h
        subst h
        refine ⟨rfl, ?_, ?_, ?_, ?_⟩
        · intro v' hv'; cases hv'
        · intro hn; rfl
        · intro v' hv'; cases hv'; rfl
        · intro hn; exact absurd hn (by simp)
      | none =>
        cases h2 : dictGet cfg "context_lines" with
        | none =>
          simp only [RichPdb.init, h1, h2] at h
          exact Option.noConfusion h
        | some b =>
          simp only [RichPdb.init, h1, h2, Option.some.injEq] at h
          subst h
          refine ⟨rfl, ?_, ?_, ?_, ?_⟩
          · intro v' hv'; cases hv'
          · intro hn; rfl
          · intro v' hv'; cases hv'
          · intro hn; rfl

/-- C9: the resolved `show_locals` / `context_lines` of a session are the
explicit constructor arguments when given, else the class config's
values; the stop-time `show_stack` decision reads the config directly, so
two sessions built over the same config agree on it no matter which
constructor arguments they were given; and a config produced by
`load_config` over the built-in defaults always makes the constructor
succeed. -/
theorem session_option_resolution :
    ∀ (cfg : PyDict) (sl cl : Option PyVal) (pdb : RichPdb),
      RichPdb.init cfg sl cl = some pdb →
      pdb.config = cfg
      ∧ (∀ v, sl = some v → pdb.show_locals = v)
      ∧ (sl = none → dictGet cfg "show_locals" = some pdb.show_locals)
      ∧ (∀ v, cl = some v → pdb.context_lines = v)
      ∧ (cl = none → dictGet cfg "context_lines" = some pdb.context_lines)
      ∧ pdb.showStackDecision = (dictGetD cfg "show_stack" (.vBool true)).truthy
      ∧ (∀ sl2 cl2 pdb2, RichPdb.init cfg sl2 cl2 = some pdb2 →
          pdb2.showStackDecision = pdb.showStackDecision)
      ∧ (∀ file : TomlFile,
          (RichPdb.init (load_config DEFAULT_CONFIG file).1 none none).isSome
            = true) := by
  intro cfg sl cl pdb h
  obtain ⟨hc, hs1, hs2, hc1, hc2⟩ := init_inv cfg sl cl pdb h
  refine ⟨hc, hs1, hs2, hc1, hc2, ?_, ?_, ?_⟩
  · rw [RichPdb.showStackDecision, hc]
  · intro sl2 cl2 pdb2 hh
    obtain ⟨hcc, _, _, _, _⟩ := init_inv cfg sl2 cl2 pdb2 hh
    rw [RichPdb.showStackDecision, RichPdb.showStackDecision, hc, hcc]
  · intro file
    cases file with
    | absent => rfl
    | unreadable => rfl
    | parses d =>
      have hm1 := dictUpdate_mem_key d DEFAULT_CONFIG "show_locals"
        ⟨.vBool true, by simp [DEFAULT_CONFIG]⟩
      have hm2 := dictUpdate_mem_key d DEFAULT_CONFIG "context_lines"
        ⟨.vInt 3, by simp [DEFAULT_CONFIG]⟩
      obtain ⟨a, ha⟩ := Option.isSome_iff_exists.mp
        ((dictGet_isSome_iff _ _).mpr hm1)
      obtain ⟨b, hb⟩ := Option.isSome_iff_exists.mp
        ((dictGet_isSome_iff _ _).mpr hm2)
      unfold RichPdb.init
      simp [load_config, ha, hb]

/-- Witness for C9: an explicit `show_locals=False` with defaults for the
rest resolves to the explicit value. -/
theorem session_option_resolution_witness :
    (⟨DEFAULT_CONFIG, .vBool false, .vInt 3⟩ : RichPdb).show_locals
      = .vBool false :=
  (session_option_resolution DEFAULT_CONFIG (some (.vBool false)) none
    ⟨DEFAULT_CONFIG, .vBool false, .vInt 3⟩ rfl).2.1 (.vBool false) rfl
